import Mathlib

/-!
Shallow embedding of the key-detection engine of the SpotifyScaler
repository (`src/analysis.py`), together with theorems checking the
natural-language specification against the code.

Conventions of the embedding:
* Python floats are modelled by exact rationals / reals.
* A waveform is a `List` of samples; sample rates and durations are `ℕ`.
* The librosa DSP calls (`get_enhanced_chroma`, beat tracking, rms,
  spectral centroid) are external collaborators: they are abstracted as
  function parameters or as the input pitch-class vector, exactly at the
  boundary where `analysis.py` calls into librosa.  Everything after that
  boundary is translated from the source.
* `constants.py` is not part of the provided sources; `KEY_NAMES` and the
  Krumhansl profiles are modelled from the spec (see their doc comments).
-/

set_option linter.unusedVariables false

namespace SpotifyScaler

/-- The mode of a key, `"major"` / `"minor"` in the Python source. -/
inductive Mode where
  | major : Mode
  | minor : Mode
deriving DecidableEq, Repr

/-- Step function of `np.argmax`'s left-to-right scan: keep the current
best index unless a strictly larger value appears. -/
def argmaxStep {α : Type} [LinearOrder α] (f : Fin 12 → α) (best i : Fin 12) : Fin 12 :=
  if f best < f i then i else best

/-- `np.argmax` over a 12-vector: the first index attaining the maximum
value (used at `analysis.py` lines 72-73 and 126). -/
def argmax12 {α : Type} [LinearOrder α] (f : Fin 12 → α) : Fin 12 :=
  (List.finRange 12).foldl (argmaxStep f) 0

theorem argmaxStep_le_self {α : Type} [LinearOrder α] (f : Fin 12 → α) (b i : Fin 12) :
    f b ≤ f (argmaxStep f b i) := by
  unfold argmaxStep
  split
  · exact le_of_lt (by assumption)
  · exact le_refl _

theorem argmaxStep_le_arg {α : Type} [LinearOrder α] (f : Fin 12 → α) (b i : Fin 12) :
    f i ≤ f (argmaxStep f b i) := by
  unfold argmaxStep
  split
  · exact le_refl _
  · exact le_of_not_lt (by assumption)

theorem le_foldl_argmax {α : Type} [LinearOrder α] (f : Fin 12 → α) :
    ∀ (l : List (Fin 12)) (b : Fin 12), f b ≤ f (l.foldl (argmaxStep f) b) := by
  intro l
  induction l with
  | nil => intro b; exact le_refl _
  | cons i t ih =>
      intro b
      calc f b ≤ f (argmaxStep f b i) := argmaxStep_le_self f b i
        _ ≤ f (List.foldl (argmaxStep f) (argmaxStep f b i) t) := ih _

theorem mem_le_foldl_argmax {α : Type} [LinearOrder α] (f : Fin 12 → α) :
    ∀ (l : List (Fin 12)) (b j : Fin 12), j ∈ l → f j ≤ f (l.foldl (argmaxStep f) b) := by
  intro l
  induction l with
  | nil => intro b j h; cases h
  | cons i t ih =>
      intro b j h
      rcases List.mem_cons.mp h with h1 | h2
      · subst h1
        calc f j ≤ f (argmaxStep f b j) := argmaxStep_le_arg f b j
          _ ≤ f (List.foldl (argmaxStep f) (argmaxStep f b j) t) := le_foldl_argmax f t _
      · exact ih _ j h2

/-- The value at `argmax12 f` dominates every entry of `f`. -/
theorem le_argmax12 {α : Type} [LinearOrder α] (f : Fin 12 → α) (j : Fin 12) :
    f j ≤ f (argmax12 f) :=
  mem_le_foldl_argmax f (List.finRange 12) 0 j (List.mem_finRange j)

/-- When index 0 already attains the maximum, the left-to-right scan of
`np.argmax` never moves off it. -/
theorem argmax12_eq_zero {α : Type} [LinearOrder α] (f : Fin 12 → α) (h : ∀ j, f j ≤ f 0) :
    argmax12 f = 0 := by
  have key : ∀ l : List (Fin 12), (∀ i ∈ l, ¬ f 0 < f i) → l.foldl (argmaxStep f) 0 = 0 := by
    intro l
    induction l with
    | nil => intro _; rfl
    | cons i t ih =>
        intro hl
        have h0 : argmaxStep f 0 i = 0 := by
          unfold argmaxStep
          rw [if_neg (hl i (List.mem_cons_self i t))]
        rw [List.foldl_cons, h0]
        exact ih fun j hj => hl j (List.mem_cons_of_mem i hj)
  exact key _ fun i _ => not_lt.mpr (h i)

/-- Key/mode/confidence selection from the two weighted score arrays:
`analysis.py` lines 71-93 of `detect_key_enhanced` (`np.argmax` on each
mode's scores, confidence as the winning share of the pooled scores, and
the 0.8 near-tie penalty). -/
def selectKey {α : Type} [LinearOrderedField α]
    (weighted_major_scores weighted_minor_scores : Fin 12 → α) : Fin 12 × Mode × α :=
  let major_idx := argmax12 weighted_major_scores
  let minor_idx := argmax12 weighted_minor_scores
  let major_score := weighted_major_scores major_idx
  let minor_score := weighted_minor_scores minor_idx
  if minor_score < major_score then
    let confidence := major_score / (major_score + minor_score + 1 / 100000000)
    (major_idx, Mode.major,
      if |major_score - minor_score| < 5 / 100 then confidence * (8 / 10) else confidence)
  else
    let confidence := minor_score / (major_score + minor_score + 1 / 100000000)
    (minor_idx, Mode.minor,
      if |major_score - minor_score| < 5 / 100 then confidence * (8 / 10) else confidence)

/-- Modelled from the spec: steps 1-4 of the Single-Pass estimator
(§4.4) without the near-tie penalty of step 5 — the per-segment
estimator that §4.5 step 2 (and claim C4) says the Segment-Voting
estimator runs. -/
def selectKeyNoPenalty {α : Type} [LinearOrderedField α]
    (weighted_major_scores weighted_minor_scores : Fin 12 → α) : Fin 12 × Mode × α :=
  let major_idx := argmax12 weighted_major_scores
  let minor_idx := argmax12 weighted_minor_scores
  let major_score := weighted_major_scores major_idx
  let minor_score := weighted_minor_scores minor_idx
  if minor_score < major_score then
    (major_idx, Mode.major, major_score / (major_score + minor_score + 1 / 100000000))
  else
    (minor_idx, Mode.minor, minor_score / (major_score + minor_score + 1 / 100000000))

/-- Consensus resolution between the Single-Pass estimate
`(key_idx1, mode1, conf1)` and the Segment-Voting estimate
`(key_idx2, mode2, conf2)`: `analysis.py` lines 189-202 of
`detect_key_librosa`. -/
def resolve_consensus (key_idx1 : Fin 12) (mode1 : Mode) (conf1 : ℚ)
    (key_idx2 : Fin 12) (mode2 : Mode) (conf2 : ℚ) : Fin 12 × Mode × ℚ :=
  if conf2 * (12 / 10) < conf1 then
    (key_idx1, mode1, conf1)
  else if conf1 * (12 / 10) < conf2 then
    (key_idx2, mode2, conf2)
  else if key_idx1 = key_idx2 ∧ mode1 = mode2 then
    (key_idx1, mode1, (conf1 + conf2) / 2 * (11 / 10))
  else if conf2 ≤ conf1 then
    (key_idx1, mode1, conf1 * (9 / 10))
  else
    (key_idx2, mode2, conf2 * (9 / 10))

/-- Low-energy confidence adjustment: `analysis.py` lines 250-253 of
`detect_key_librosa` (`if energy < 0.01: confidence *= 0.7`). -/
def adjust_for_energy (confidence : ℚ) (energy : ℚ) : ℚ :=
  if energy < 1 / 100 then confidence * (7 / 10) else confidence

/-- The final confidence produced by the resolver followed by the
low-energy post-adjustment, as `detect_key_librosa` computes it. -/
def resolve_with_energy (key_idx1 : Fin 12) (mode1 : Mode) (conf1 : ℚ)
    (key_idx2 : Fin 12) (mode2 : Mode) (conf2 : ℚ) (energy : ℚ) : Fin 12 × Mode × ℚ :=
  let r := resolve_consensus key_idx1 mode1 conf1 key_idx2 mode2 conf2
  (r.1, r.2.1, adjust_for_energy r.2.2 energy)

/-- C1: the Consensus Resolver applies its rules in order — strong
preference for the estimate whose confidence exceeds 1.2 times the other;
otherwise an agreement bonus of 1.1 on the mean confidence when tonic and
mode agree; otherwise the higher-confidence estimate with a 0.9
disagreement penalty — and afterwards a final 0.7 multiplier exactly when
the measured signal energy is below 0.01. -/
theorem resolve_consensus_rules (key_idx1 : Fin 12) (mode1 : Mode) (conf1 : ℚ)
    (key_idx2 : Fin 12) (mode2 : Mode) (conf2 : ℚ) (energy : ℚ) :
    ((12 / 10) * conf2 < conf1 →
      resolve_with_energy key_idx1 mode1 conf1 key_idx2 mode2 conf2 energy
        = (key_idx1, mode1, adjust_for_energy conf1 energy)) ∧
    (¬ (12 / 10) * conf2 < conf1 → (12 / 10) * conf1 < conf2 →
      resolve_with_energy key_idx1 mode1 conf1 key_idx2 mode2 conf2 energy
        = (key_idx2, mode2, adjust_for_energy conf2 energy)) ∧
    (¬ (12 / 10) * conf2 < conf1 → ¬ (12 / 10) * conf1 < conf2 →
      key_idx1 = key_idx2 → mode1 = mode2 →
      resolve_with_energy key_idx1 mode1 conf1 key_idx2 mode2 conf2 energy
        = (key_idx1, mode1, adjust_for_energy ((conf1 + conf2) / 2 * (11 / 10)) energy)) ∧
    (¬ (12 / 10) * conf2 < conf1 → ¬ (12 / 10) * conf1 < conf2 →
      ¬ (key_idx1 = key_idx2 ∧ mode1 = mode2) → conf2 ≤ conf1 →
      resolve_with_energy key_idx1 mode1 conf1 key_idx2 mode2 conf2 energy
        = (key_idx1, mode1, adjust_for_energy (conf1 * (9 / 10)) energy)) ∧
    (¬ (12 / 10) * conf2 < conf1 → ¬ (12 / 10) * conf1 < conf2 →
      ¬ (key_idx1 = key_idx2 ∧ mode1 = mode2) → conf1 < conf2 →
      resolve_with_energy key_idx1 mode1 conf1 key_idx2 mode2 conf2 energy
        = (key_idx2, mode2, adjust_for_energy (conf2 * (9 / 10)) energy)) ∧
    (∀ c : ℚ, energy < 1 / 100 → adjust_for_energy c energy = c * (7 / 10)) ∧
    (∀ c : ℚ, ¬ energy < 1 / 100 → adjust_for_energy c energy = c) := by
  unfold resolve_with_energy resolve_consensus adjust_for_energy
  refine ⟨?_, ?_, ?_, ?_, ?_, ?_, ?_⟩
  · intro h1
    rw [if_pos (by linarith)]
  · intro h1 h2
    rw [if_neg (by intro h; exact h1 (by linarith)), if_pos (by linarith)]
  · intro h1 h2 hk hm
    rw [if_neg (by intro h; exact h1 (by linarith)),
      if_neg (by intro h; exact h2 (by linarith)), if_pos ⟨hk, hm⟩]
  · intro h1 h2 hkm hc
    rw [if_neg (by intro h; exact h1 (by linarith)),
      if_neg (by intro h; exact h2 (by linarith)), if_neg hkm, if_pos hc]
  · intro h1 h2 hkm hc
    rw [if_neg (by intro h; exact h1 (by linarith)),
      if_neg (by intro h; exact h2 (by linarith)), if_neg hkm,
      if_neg (by intro h; exact absurd hc (not_lt.mpr h))]
  · intro c h
    rw [if_pos h]
  · intro c h
    rw [if_neg h]

/-- Witness for C1 at concrete inputs: with `conf1 = 1`, `conf2 = 1/2`
(strong preference for estimate 1) and low energy `1/200`, the resolver
adopts estimate 1 and the post-adjustment multiplies by 0.7. -/
theorem resolve_consensus_rules_witness :
    resolve_with_energy 0 Mode.major 1 3 Mode.minor (1 / 2) (1 / 200)
      = (0, Mode.major, 7 / 10) := by
  have h := (resolve_consensus_rules 0 Mode.major 1 3 Mode.minor (1 / 2) (1 / 200)).1
    (by norm_num)
  rw [h]
  unfold adjust_for_energy
  norm_num

/-! ### Reference profiles and Pearson correlation (`analysis.py` lines 10-43) -/

/-- Modelled from the spec: `constants.py` is not among the provided
sources; §4.1 names a Krumhansl-Schmuckler-style template as one of the
three tone templates and treats the exact numbers as a calibration
concern, so the standard published Krumhansl-Kessler major profile is
used. -/
noncomputable def KRUMHANSL_MAJOR : Fin 12 → ℝ :=
  ![6.35, 2.23, 3.48, 2.33, 4.38, 4.09, 2.52, 5.19, 2.39, 3.66, 2.29, 2.88]

/-- Modelled from the spec: the Krumhansl-Kessler minor profile, see
`KRUMHANSL_MAJOR`. -/
noncomputable def KRUMHANSL_MINOR : Fin 12 → ℝ :=
  ![6.33, 2.68, 3.52, 5.38, 2.60, 3.53, 2.54, 4.75, 3.98, 2.69, 3.34, 3.17]

/-- Temperley major profile, `analysis.py` line 10. -/
noncomputable def TEMPERLEY_MAJOR : Fin 12 → ℝ :=
  ![5.0, 2.0, 3.5, 2.0, 4.5, 4.0, 2.0, 4.5, 2.0, 3.5, 1.5, 4.0]

/-- Temperley minor profile, `analysis.py` line 11. -/
noncomputable def TEMPERLEY_MINOR : Fin 12 → ℝ :=
  ![5.0, 2.0, 3.5, 4.5, 2.0, 4.0, 2.0, 4.5, 3.5, 2.0, 1.5, 4.0]

/-- Albrecht-Shanahan major profile, `analysis.py` line 14. -/
noncomputable def ALBRECHT_MAJOR : Fin 12 → ℝ :=
  ![6.44, 2.00, 3.48, 2.19, 4.54, 3.53, 2.39, 5.11, 2.39, 3.66, 2.29, 3.29]

/-- Albrecht-Shanahan minor profile, `analysis.py` line 15. -/
noncomputable def ALBRECHT_MINOR : Fin 12 → ℝ :=
  ![6.26, 2.68, 3.48, 5.83, 2.88, 3.69, 2.46, 5.12, 4.04, 2.69, 3.34, 3.24]

/-- `np.roll(p, shift)`: entry `i` of the rolled vector is entry
`(i - shift) mod 12` of `p` (`Fin 12` subtraction is mod-12). -/
def npRoll (p : Fin 12 → ℝ) (shift : Fin 12) : Fin 12 → ℝ :=
  fun i => p (i - shift)

/-- Arithmetic mean of a 12-vector. -/
noncomputable def meanPC (x : Fin 12 → ℝ) : ℝ := (∑ i, x i) / 12

/-- Sum of products of deviations from the mean (the shared numerator
and denominator building block of the Pearson coefficient). -/
noncomputable def covSum (x y : Fin 12 → ℝ) : ℝ :=
  ∑ i, (x i - meanPC x) * (y i - meanPC y)

/-- Pearson correlation coefficient of two 12-vectors, as
`scipy.stats.pearsonr` computes on the 12-sample inputs of
`correlate_with_profiles` (the degenerate constant-input case, where the
denominator vanishes, is mapped to 0 by total division). -/
noncomputable def pearsonr (x y : Fin 12 → ℝ) : ℝ :=
  covSum x y / (Real.sqrt (covSum x x) * Real.sqrt (covSum y y))

/-- `correlate_with_profiles`, `analysis.py` lines 32-43: Pearson
correlation of the chroma vector against every rotation of the major and
minor profiles. -/
noncomputable def correlate_with_profiles
    (chroma_vector profile_major profile_minor : Fin 12 → ℝ) :
    (Fin 12 → ℝ) × (Fin 12 → ℝ) :=
  (fun shift => pearsonr chroma_vector (npRoll profile_major shift),
   fun shift => pearsonr chroma_vector (npRoll profile_minor shift))

/-- Weighted major score array of `detect_key_enhanced`, `analysis.py`
lines 57-69, with the three-profile loop unrolled. -/
noncomputable def weighted_major_scores (chroma_norm : Fin 12 → ℝ) : Fin 12 → ℝ :=
  fun shift =>
    0.3 * (correlate_with_profiles chroma_norm KRUMHANSL_MAJOR KRUMHANSL_MINOR).1 shift
    + 0.3 * (correlate_with_profiles chroma_norm TEMPERLEY_MAJOR TEMPERLEY_MINOR).1 shift
    + 0.4 * (correlate_with_profiles chroma_norm ALBRECHT_MAJOR ALBRECHT_MINOR).1 shift

/-- Weighted minor score array of `detect_key_enhanced`, `analysis.py`
lines 57-69. -/
noncomputable def weighted_minor_scores (chroma_norm : Fin 12 → ℝ) : Fin 12 → ℝ :=
  fun shift =>
    0.3 * (correlate_with_profiles chroma_norm KRUMHANSL_MAJOR KRUMHANSL_MINOR).2 shift
    + 0.3 * (correlate_with_profiles chroma_norm TEMPERLEY_MAJOR TEMPERLEY_MINOR).2 shift
    + 0.4 * (correlate_with_profiles chroma_norm ALBRECHT_MAJOR ALBRECHT_MINOR).2 shift

/-- Chroma normalization by the sum plus epsilon, `analysis.py` line 54. -/
noncomputable def chroma_normalize (chroma_median : Fin 12 → ℝ) : Fin 12 → ℝ :=
  fun i => chroma_median i / ((∑ j, chroma_median j) + 1 / 100000000)

/-- `detect_key_enhanced`, `analysis.py` lines 45-93, taking as input the
median pitch-class vector (the librosa chroma extraction of lines 48-51
is the abstracted external collaborator producing it). -/
noncomputable def detect_key_enhanced (chroma_median : Fin 12 → ℝ) : Fin 12 × Mode × ℝ :=
  selectKey (weighted_major_scores (chroma_normalize chroma_median))
    (weighted_minor_scores (chroma_normalize chroma_median))

/-- Best rotation score of the major mode for a normalized chroma vector. -/
noncomputable def best_major_score (x : Fin 12 → ℝ) : ℝ :=
  weighted_major_scores x (argmax12 (weighted_major_scores x))

/-- Best rotation score of the minor mode for a normalized chroma vector. -/
noncomputable def best_minor_score (x : Fin 12 → ℝ) : ℝ :=
  weighted_minor_scores x (argmax12 (weighted_minor_scores x))

theorem sum_npRoll (p : Fin 12 → ℝ) (s : Fin 12) : ∑ i, npRoll p s i = ∑ i, p i := by
  simpa [npRoll] using Equiv.sum_comp (Equiv.subRight s) p

theorem meanPC_npRoll (p : Fin 12 → ℝ) (s : Fin 12) : meanPC (npRoll p s) = meanPC p := by
  unfold meanPC
  rw [sum_npRoll]

theorem covSum_npRoll_self (p : Fin 12 → ℝ) (s : Fin 12) :
    covSum (npRoll p s) (npRoll p s) = covSum p p := by
  unfold covSum
  rw [meanPC_npRoll]
  simpa [npRoll] using
    Equiv.sum_comp (Equiv.subRight s) (fun j => (p j - meanPC p) * (p j - meanPC p))

/-- Summed over all 12 rotations, the deviation products cancel: the
rotation average of `covSum` against a fixed vector is zero. -/
theorem sum_shifts_covSum (x p : Fin 12 → ℝ) :
    ∑ s, covSum x (npRoll p s) = 0 := by
  have h12 : ∑ j, p j = 12 * meanPC p := by
    unfold meanPC
    field_simp
  calc ∑ s, covSum x (npRoll p s)
      = ∑ s, ∑ i, (x i - meanPC x) * (npRoll p s i - meanPC p) := by
        refine Finset.sum_congr rfl fun s _ => ?_
        unfold covSum
        rw [meanPC_npRoll]
    _ = ∑ i, ∑ s, (x i - meanPC x) * (npRoll p s i - meanPC p) := Finset.sum_comm
    _ = ∑ i : Fin 12, (x i - meanPC x) * ((∑ s, npRoll p s i) - 12 * meanPC p) := by
        refine Finset.sum_congr rfl fun i _ => ?_
        rw [← Finset.mul_sum]
        congr 1
        rw [Finset.sum_sub_distrib, Finset.sum_const, Finset.card_univ, Fintype.card_fin,
          nsmul_eq_mul]
        norm_num
    _ = ∑ i : Fin 12, (x i - meanPC x) * 0 := by
        refine Finset.sum_congr rfl fun i _ => ?_
        have hroll : ∑ s, npRoll p s i = ∑ j, p j := by
          simpa [npRoll] using Equiv.sum_comp (Equiv.subLeft i) p
        rw [hroll, h12, sub_self]
    _ = 0 := by simp

/-- The Pearson correlations of a fixed vector against all 12 rotations
of a profile sum to zero (rotation does not change the profile's mean or
variance, so the common denominator factors out of the cancelling sum). -/
theorem sum_shifts_pearsonr (x p : Fin 12 → ℝ) :
    ∑ s, pearsonr x (npRoll p s) = 0 := by
  have hterm : ∀ s : Fin 12, pearsonr x (npRoll p s)
      = covSum x (npRoll p s) * (Real.sqrt (covSum x x) * Real.sqrt (covSum p p))⁻¹ := by
    intro s
    unfold pearsonr
    rw [covSum_npRoll_self, div_eq_mul_inv]
  rw [Finset.sum_congr rfl fun s _ => hterm s, ← Finset.sum_mul, sum_shifts_covSum, zero_mul]

theorem sum_weighted_major_scores (x : Fin 12 → ℝ) :
    ∑ s, weighted_major_scores x s = 0 := by
  unfold weighted_major_scores correlate_with_profiles
  rw [Finset.sum_add_distrib, Finset.sum_add_distrib, ← Finset.mul_sum, ← Finset.mul_sum,
    ← Finset.mul_sum, sum_shifts_pearsonr, sum_shifts_pearsonr, sum_shifts_pearsonr]
  ring

theorem sum_weighted_minor_scores (x : Fin 12 → ℝ) :
    ∑ s, weighted_minor_scores x s = 0 := by
  unfold weighted_minor_scores correlate_with_profiles
  rw [Finset.sum_add_distrib, Finset.sum_add_distrib, ← Finset.mul_sum, ← Finset.mul_sum,
    ← Finset.mul_sum, sum_shifts_pearsonr, sum_shifts_pearsonr, sum_shifts_pearsonr]
  ring

/-- A 12-vector with zero total has a nonnegative maximum entry. -/
theorem argmax12_nonneg_of_sum_eq_zero (f : Fin 12 → ℝ) (h : ∑ s, f s = 0) :
    0 ≤ f (argmax12 f) := by
  by_contra hneg
  push_neg at hneg
  have hle : ∑ s, f s ≤ ∑ _s : Fin 12, f (argmax12 f) :=
    Finset.sum_le_sum fun i _ => le_argmax12 f i
  rw [Finset.sum_const, Finset.card_univ, Fintype.card_fin, nsmul_eq_mul, h] at hle
  push_cast at hle
  nlinarith

theorem best_major_score_nonneg (x : Fin 12 → ℝ) : 0 ≤ best_major_score x :=
  argmax12_nonneg_of_sum_eq_zero _ (sum_weighted_major_scores x)

theorem best_minor_score_nonneg (x : Fin 12 → ℝ) : 0 ≤ best_minor_score x :=
  argmax12_nonneg_of_sum_eq_zero _ (sum_weighted_minor_scores x)

/-- Characterization of the selection step: the chosen mode is the one
with the maximal best rotation score, and the confidence is the winning
share of the pooled best scores with the 0.8 factor exactly in the
near-tie case. -/
theorem selectKey_spec {α : Type} [LinearOrderedField α] (wMaj wMin : Fin 12 → α) :
    (match (selectKey wMaj wMin).2.1 with
      | Mode.major => wMaj (argmax12 wMaj)
      | Mode.minor => wMin (argmax12 wMin))
      = max (wMaj (argmax12 wMaj)) (wMin (argmax12 wMin)) ∧
    (selectKey wMaj wMin).2.2
      = (if |max (wMaj (argmax12 wMaj)) (wMin (argmax12 wMin))
              - min (wMaj (argmax12 wMaj)) (wMin (argmax12 wMin))| < 5 / 100
          then (8 : α) / 10 else 1)
        * (max (wMaj (argmax12 wMaj)) (wMin (argmax12 wMin))
            / (max (wMaj (argmax12 wMaj)) (wMin (argmax12 wMin))
               + min (wMaj (argmax12 wMaj)) (wMin (argmax12 wMin)) + 1 / 100000000)) := by
  simp only [selectKey]
  set A := wMaj (argmax12 wMaj) with hA
  set B := wMin (argmax12 wMin) with hB
  by_cases h : B < A
  · rw [if_pos h, max_eq_left h.le, min_eq_right h.le]
    refine ⟨rfl, ?_⟩
    split_ifs
    · ring
    · ring
  · have h' : A ≤ B := not_lt.mp h
    rw [if_neg h, max_eq_right h', min_eq_left h']
    refine ⟨rfl, ?_⟩
    rw [abs_sub_comm A B] at *
    split_ifs
    · ring
    · ring

/-- The selection step keeps confidence in `[0,1]` whenever both best
rotation scores are nonnegative. -/
theorem selectKey_confidence_mem {α : Type} [LinearOrderedField α] (wMaj wMin : Fin 12 → α)
    (hA : 0 ≤ wMaj (argmax12 wMaj)) (hB : 0 ≤ wMin (argmax12 wMin)) :
    0 ≤ (selectKey wMaj wMin).2.2 ∧ (selectKey wMaj wMin).2.2 ≤ 1 := by
  simp only [selectKey]
  set A := wMaj (argmax12 wMaj) with hA'
  set B := wMin (argmax12 wMin) with hB'
  have heps : (0 : α) < 1 / 100000000 := by norm_num
  have hden : 0 < A + B + 1 / 100000000 := by linarith
  have hbase_maj : 0 ≤ A / (A + B + 1 / 100000000) ∧ A / (A + B + 1 / 100000000) ≤ 1 :=
    ⟨div_nonneg hA hden.le, (div_le_one hden).mpr (by linarith)⟩
  have hbase_min : 0 ≤ B / (A + B + 1 / 100000000) ∧ B / (A + B + 1 / 100000000) ≤ 1 :=
    ⟨div_nonneg hB hden.le, (div_le_one hden).mpr (by linarith)⟩
  by_cases h : B < A
  · rw [if_pos h]
    split_ifs
    · constructor
      · exact mul_nonneg hbase_maj.1 (by norm_num)
      · exact mul_le_one₀ hbase_maj.2 (by norm_num) (by norm_num)
    · exact hbase_maj
  · rw [if_neg h]
    split_ifs
    · constructor
      · exact mul_nonneg hbase_min.1 (by norm_num)
      · exact mul_le_one₀ hbase_min.2 (by norm_num) (by norm_num)
    · exact hbase_min

/-- C2: for every pitch-class vector, the Single-Pass estimator picks the
mode whose best rotation score is maximal, and its confidence is
`winningScore / (winningScore + competingScore + 1e-8)` multiplied by 0.8
exactly when `|winningScore - competingScore| < 0.05`, where the
competing score is the other mode's best rotation score. -/
theorem detect_key_enhanced_confidence_rule (chroma_median : Fin 12 → ℝ) :
    (match (detect_key_enhanced chroma_median).2.1 with
      | Mode.major => best_major_score (chroma_normalize chroma_median)
      | Mode.minor => best_minor_score (chroma_normalize chroma_median))
      = max (best_major_score (chroma_normalize chroma_median))
          (best_minor_score (chroma_normalize chroma_median)) ∧
    (detect_key_enhanced chroma_median).2.2
      = (if |max (best_major_score (chroma_normalize chroma_median))
              (best_minor_score (chroma_normalize chroma_median))
            - min (best_major_score (chroma_normalize chroma_median))
              (best_minor_score (chroma_normalize chroma_median))| < 5 / 100
          then (8 : ℝ) / 10 else 1)
        * (max (best_major_score (chroma_normalize chroma_median))
            (best_minor_score (chroma_normalize chroma_median))
          / (max (best_major_score (chroma_normalize chroma_median))
              (best_minor_score (chroma_normalize chroma_median))
            + min (best_major_score (chroma_normalize chroma_median))
                (best_minor_score (chroma_normalize chroma_median)) + 1 / 100000000)) := by
  unfold detect_key_enhanced best_major_score best_minor_score
  exact selectKey_spec _ _

/-- C5: for every input pitch-class vector, the raw per-pass confidence
produced by the Single-Pass estimator (before any consensus agreement
bonus) lies in the interval [0,1]. -/
theorem detect_key_enhanced_confidence_in_unit_interval (chroma_median : Fin 12 → ℝ) :
    0 ≤ (detect_key_enhanced chroma_median).2.2
      ∧ (detect_key_enhanced chroma_median).2.2 ≤ 1 := by
  unfold detect_key_enhanced
  exact selectKey_confidence_mem _ _
    (argmax12_nonneg_of_sum_eq_zero _ (sum_weighted_major_scores _))
    (argmax12_nonneg_of_sum_eq_zero _ (sum_weighted_minor_scores _))

/-! ### Segment-voting estimator (`analysis.py` lines 95-130) -/

/-- Python slice `y[i * ss : min((i + 1) * ss, len(y))]` taken by the
segment loop, `analysis.py` lines 105-107. -/
def segment_slice {α : Type} (y : List α) (ss i : ℕ) : List α :=
  (y.drop (i * ss)).take (min ((i + 1) * ss) y.length - i * ss)

/-- Per-segment estimates collected by the loop of
`segment_based_detection`, `analysis.py` lines 97-113: `max 1` of the
floor segment count, slices of `segment_duration * sr` samples, a
segment kept only when strictly longer than one second of samples, and
each kept segment analyzed by the `detect_key_enhanced` logic
(`scoresOf` abstracts the chroma extraction and correlation of lines
48-69; the selection of lines 71-93 is `selectKey`). -/
def segment_estimates {α : Type} [LinearOrderedField α]
    (scoresOf : List α → (Fin 12 → α) × (Fin 12 → α))
    (y : List α) (sr segment_duration : ℕ) : List (Fin 12 × Mode × α) :=
  let segment_samples := segment_duration * sr
  let n_segments := max 1 (y.length / segment_samples)
  (List.range n_segments).filterMap fun i =>
    let segment := segment_slice y segment_samples i
    if sr < segment.length then
      some (selectKey (scoresOf segment).1 (scoresOf segment).2)
    else
      none

/-- Confidence-weighted vote aggregation of `segment_based_detection`,
`analysis.py` lines 118-130: accumulate per-tonic and per-mode
confidence mass, then take the argmax tonic, the mode with the larger
mass, and the unweighted mean of the confidences. -/
def vote_aggregate {α : Type} [LinearOrderedField α]
    (est : List (Fin 12 × Mode × α)) : Fin 12 × Mode × α :=
  let key_weights : Fin 12 → α :=
    est.foldl (fun w e => Function.update w e.1 (w e.1 + e.2.2)) fun _ => 0
  let mode_weights : α × α :=
    est.foldl (fun w e =>
      match e.2.1 with
      | Mode.major => (w.1 + e.2.2, w.2)
      | Mode.minor => (w.1, w.2 + e.2.2)) (0, 0)
  (argmax12 key_weights,
    if mode_weights.2 < mode_weights.1 then Mode.major else Mode.minor,
    (est.map fun e => e.2.2).sum / (est.length : α))

/-- The confidence component of the aggregate is the unweighted mean of
the per-segment confidences. -/
theorem vote_aggregate_conf {α : Type} [LinearOrderedField α]
    (est : List (Fin 12 × Mode × α)) :
    (vote_aggregate est).2.2 = (est.map fun e => e.2.2).sum / (est.length : α) := rfl

/-- `segment_based_detection`, `analysis.py` lines 95-130. -/
def segment_based_detection {α : Type} [LinearOrderedField α]
    (scoresOf : List α → (Fin 12 → α) × (Fin 12 → α))
    (y : List α) (sr segment_duration : ℕ) : Fin 12 × Mode × α :=
  let est := segment_estimates scoresOf y sr segment_duration
  if est = [] then ((0 : Fin 12), Mode.major, (0 : α)) else vote_aggregate est

/-- The usable segments of the code's loop: the `max 1 (len / ss)`
slices, filtered to those strictly longer than one second. -/
def code_usable_segments {α : Type} (y : List α) (sr segment_duration : ℕ) : List (List α) :=
  let ss := segment_duration * sr
  ((List.range (max 1 (y.length / ss))).map (segment_slice y ss)).filter
    fun s => decide (sr < s.length)

/-- Modelled from the spec: the partition described by claim C3 and
§4.5 step 1 — contiguous segments of `segment_duration * sr` samples
covering the whole waveform (so including a trailing partial segment),
with the trailing segment removed when it is shorter than one second. -/
def claim_segments {α : Type} (y : List α) (sr segment_duration : ℕ) : List (List α) :=
  let ss := segment_duration * sr
  let chunks := (List.range ((y.length + ss - 1) / ss)).map fun i => (y.drop (i * ss)).take ss
  match chunks.getLast? with
  | none => chunks
  | some last => if last.length < sr then chunks.dropLast else chunks

/-- Modelled from the spec: the Segment-Voting estimator exactly as
claim C3 describes it, over the partition of `claim_segments`. -/
def segment_detection_claim {α : Type} [LinearOrderedField α]
    (scoresOf : List α → (Fin 12 → α) × (Fin 12 → α))
    (y : List α) (sr segment_duration : ℕ) : Fin 12 × Mode × α :=
  let est := (claim_segments y sr segment_duration).map
    fun s => selectKey (scoresOf s).1 (scoresOf s).2
  if est = [] then ((0 : Fin 12), Mode.major, (0 : α)) else vote_aggregate est

/-- The partition the code actually computes (the amended claim C3):
when at least one full segment fits, the floor count of full segments
with the trailing remainder discarded; otherwise the whole waveform as a
single segment; and every segment of at most one second (including
exactly one second) dropped. -/
def amended_segments {α : Type} (y : List α) (sr segment_duration : ℕ) : List (List α) :=
  let ss := segment_duration * sr
  let full := (List.range (y.length / ss)).map fun i => (y.drop (i * ss)).take ss
  let segs := if full.isEmpty then [y] else full
  segs.filter fun s => decide (sr < s.length)

/-- The Segment-Voting estimator as described by the amended claim C3:
the partition of `amended_segments`, the degenerate fallback on zero
usable segments, and the code's confidence-weighted vote aggregation. -/
def segment_detection_amended {α : Type} [LinearOrderedField α]
    (scoresOf : List α → (Fin 12 → α) × (Fin 12 → α))
    (y : List α) (sr segment_duration : ℕ) : Fin 12 × Mode × α :=
  let est := (amended_segments y sr segment_duration).map
    fun s => selectKey (scoresOf s).1 (scoresOf s).2
  if est = [] then ((0 : Fin 12), Mode.major, (0 : α)) else vote_aggregate est

theorem filterMap_ite_eq_filter_map {ι α β : Type} (g : ι → α) (p : α → Prop)
    [DecidablePred p] (f : α → β) :
    ∀ l : List ι,
      (l.filterMap fun i => if p (g i) then some (f (g i)) else none)
        = ((l.map g).filter fun a => decide (p a)).map f := by
  intro l
  induction l with
  | nil => rfl
  | cons i t ih =>
      by_cases h : p (g i)
      · simp [List.filterMap_cons, h, ih]
      · simp [List.filterMap_cons, h, ih]

/-- The loop of `segment_based_detection` analyzes exactly the usable
segments, in order, with the full `detect_key_enhanced` selection. -/
theorem segment_estimates_eq_map {α : Type} [LinearOrderedField α]
    (scoresOf : List α → (Fin 12 → α) × (Fin 12 → α))
    (y : List α) (sr segment_duration : ℕ) :
    segment_estimates scoresOf y sr segment_duration
      = (code_usable_segments y sr segment_duration).map
          fun s => selectKey (scoresOf s).1 (scoresOf s).2 := by
  unfold segment_estimates code_usable_segments
  exact filterMap_ite_eq_filter_map (segment_slice y (segment_duration * sr))
    (fun s => sr < s.length) (fun s => selectKey (scoresOf s).1 (scoresOf s).2) _

theorem code_usable_segments_eq_amended {α : Type} (y : List α) (sr segment_duration : ℕ)
    (hss : 0 < segment_duration * sr) :
    code_usable_segments y sr segment_duration = amended_segments y sr segment_duration := by
  simp only [code_usable_segments, amended_segments]
  set ss := segment_duration * sr with hssdef
  by_cases hlen : y.length < ss
  · have hdiv : y.length / ss = 0 := Nat.div_eq_of_lt hlen
    have hslice : segment_slice y ss 0 = y := by
      unfold segment_slice
      simp only [Nat.zero_mul, Nat.zero_add, one_mul, List.drop_zero, Nat.sub_zero]
      rw [min_eq_right (le_of_lt hlen), List.take_length]
    rw [hdiv]
    have hmax : max 1 0 = 1 := rfl
    have hr1 : List.range 1 = [0] := rfl
    rw [hmax, hr1]
    simp [hslice]
  · push_neg at hlen
    have hone : 1 ≤ y.length / ss := (Nat.one_le_div_iff hss).mpr hlen
    have hmax : max 1 (y.length / ss) = y.length / ss := max_eq_right hone
    rw [hmax]
    have hfull : ((List.range (y.length / ss)).map fun i => (y.drop (i * ss)).take ss) ≠ [] := by
      intro hcon
      have hlen0 := congrArg List.length hcon
      simp at hlen0
      omega
    rw [if_neg (by simpa using hfull)]
    congr 1
    refine List.map_congr_left fun i hi => ?_
    have hi' : i < y.length / ss := List.mem_range.mp hi
    have hle : (i + 1) * ss ≤ y.length := by
      calc (i + 1) * ss ≤ (y.length / ss) * ss :=
            Nat.mul_le_mul_right ss (by omega)
        _ ≤ y.length := Nat.div_mul_le_self _ _
    have hmul : (i + 1) * ss = i * ss + ss := by ring
    unfold segment_slice
    rw [min_eq_left hle, hmul]
    congr 1
    omega

/-- C4 counterexample input: constant weighted score arrays with best
major score 1/2 and best minor score 12/25, whose margin 1/50 is below
the 0.05 near-tie threshold. -/
def c4ScoresOf : List ℚ → (Fin 12 → ℚ) × (Fin 12 → ℚ) :=
  fun _ =>
    (fun i => if i = 0 then 1 / 2 else 0,
     fun i => if i = 0 then 12 / 25 else 0)

theorem argmax12_c4_major : argmax12 (fun i : Fin 12 => if i = 0 then (1 : ℚ) / 2 else 0) = 0 := by
  refine argmax12_eq_zero _ fun j => ?_
  by_cases h : j = 0 <;> simp [h]

theorem argmax12_c4_minor : argmax12 (fun i : Fin 12 => if i = 0 then (12 : ℚ) / 25 else 0) = 0 := by
  refine argmax12_eq_zero _ fun j => ?_
  by_cases h : j = 0
  · simp [h]
  · simp [h]
    norm_num

theorem selectKey_c4_eval :
    selectKey (fun i : Fin 12 => if i = 0 then (1 : ℚ) / 2 else 0)
        (fun i : Fin 12 => if i = 0 then (12 : ℚ) / 25 else 0)
      = (0, Mode.major, 1 / 2 / (1 / 2 + 12 / 25 + 1 / 100000000) * (8 / 10)) := by
  norm_num [selectKey, argmax12_c4_major, argmax12_c4_minor, abs_of_pos]

theorem selectKeyNoPenalty_c4_eval :
    selectKeyNoPenalty (fun i : Fin 12 => if i = 0 then (1 : ℚ) / 2 else 0)
        (fun i : Fin 12 => if i = 0 then (12 : ℚ) / 25 else 0)
      = (0, Mode.major, 1 / 2 / (1 / 2 + 12 / 25 + 1 / 100000000)) := by
  norm_num [selectKeyNoPenalty, argmax12_c4_major, argmax12_c4_minor]

/-- Counterexample to C4 as stated: on a two-sample waveform forming one
usable segment, the per-segment estimate is not the penalty-free steps
1-4 result — the code's inner call applies the 0.8 near-tie penalty. -/
theorem segment_estimates_no_penalty_counterexample :
    segment_estimates c4ScoresOf [(0 : ℚ), 0] 1 10
      ≠ (code_usable_segments [(0 : ℚ), 0] 1 10).map
          (fun s => selectKeyNoPenalty (c4ScoresOf s).1 (c4ScoresOf s).2) := by
  have husable : code_usable_segments [(0 : ℚ), 0] 1 10 = [[0, 0]] := rfl
  rw [segment_estimates_eq_map, husable]
  simp only [List.map_cons, List.map_nil]
  have hsc : c4ScoresOf [(0 : ℚ), 0]
      = (fun i : Fin 12 => if i = 0 then (1 : ℚ) / 2 else 0,
         fun i : Fin 12 => if i = 0 then (12 : ℚ) / 25 else 0) := rfl
  rw [hsc]
  simp only []
  rw [selectKey_c4_eval, selectKeyNoPenalty_c4_eval]
  simp only [ne_eq, List.cons.injEq, Prod.mk.injEq, and_true, true_and]
  norm_num

/-- C4 (amended): for every usable segment, the Segment-Voting estimator
computes the per-segment estimate by running the full Single-Pass
selection, including the near-tie 0.8 confidence penalty. -/
theorem segment_estimates_full_selection {α : Type} [LinearOrderedField α]
    (scoresOf : List α → (Fin 12 → α) × (Fin 12 → α))
    (y : List α) (sr segment_duration : ℕ) :
    segment_estimates scoresOf y sr segment_duration
      = (code_usable_segments y sr segment_duration).map
          fun s => selectKey (scoresOf s).1 (scoresOf s).2 :=
  segment_estimates_eq_map scoresOf y sr segment_duration

/-- C3 counterexample input: score arrays that distinguish a five-sample
segment (best major score at tonic 5) from any other segment (best major
score at tonic 0). -/
def c3ScoresOf : List ℚ → (Fin 12 → ℚ) × (Fin 12 → ℚ) :=
  fun s =>
    if s.length = 5 then
      (fun i => if i = 5 then 10 else 0, fun _ => 0)
    else
      (fun i => if i = 0 then 1 else 0, fun _ => 0)

theorem argmax12_c3_front : argmax12 (fun i : Fin 12 => if i = 0 then (1 : ℚ) else 0) = 0 := by
  refine argmax12_eq_zero _ fun j => ?_
  by_cases h : j = 0 <;> simp [h]

theorem argmax12_c3_zero : argmax12 (fun _ : Fin 12 => (0 : ℚ)) = 0 :=
  argmax12_eq_zero _ fun _ => le_refl _

set_option maxRecDepth 10000 in
theorem argmax12_c3_tail : argmax12 (fun i : Fin 12 => if i = 5 then (10 : ℚ) else 0) = 5 := by
  decide

theorem selectKey_c3_front_eval :
    selectKey (fun i : Fin 12 => if i = 0 then (1 : ℚ) else 0) (fun _ : Fin 12 => (0 : ℚ))
      = (0, Mode.major, 1 / (1 + 0 + 1 / 100000000)) := by
  norm_num [selectKey, argmax12_c3_front, argmax12_c3_zero]

theorem selectKey_c3_tail_eval :
    selectKey (fun i : Fin 12 => if i = 5 then (10 : ℚ) else 0) (fun _ : Fin 12 => (0 : ℚ))
      = (5, Mode.major, 10 / (10 + 0 + 1 / 100000000)) := by
  norm_num [selectKey, argmax12_c3_tail, argmax12_c3_zero]

/-- Counterexample to C3 as stated: on a 25-sample waveform at one sample
per second with 10-second segments, the code uses only the two full
segments and silently discards the 5-second trailing remainder, while the
claim's partition keeps that trailing segment (it is not shorter than one
second), so the claimed estimator disagrees with the code. -/
theorem segment_based_detection_counterexample :
    segment_based_detection c3ScoresOf (List.replicate 25 (0 : ℚ)) 1 10
      ≠ segment_detection_claim c3ScoresOf (List.replicate 25 (0 : ℚ)) 1 10 := by
  have husable : code_usable_segments (List.replicate 25 (0 : ℚ)) 1 10
      = [List.replicate 10 (0 : ℚ), List.replicate 10 (0 : ℚ)] := rfl
  have hclaim : claim_segments (List.replicate 25 (0 : ℚ)) 1 10
      = [List.replicate 10 (0 : ℚ), List.replicate 10 (0 : ℚ),
         List.replicate 5 (0 : ℚ)] := rfl
  have hsc10 : c3ScoresOf (List.replicate 10 (0 : ℚ))
      = (fun i : Fin 12 => if i = 0 then (1 : ℚ) else 0, fun _ : Fin 12 => (0 : ℚ)) := rfl
  have hsc5 : c3ScoresOf (List.replicate 5 (0 : ℚ))
      = (fun i : Fin 12 => if i = 5 then (10 : ℚ) else 0, fun _ : Fin 12 => (0 : ℚ)) := rfl
  have hestL : segment_estimates c3ScoresOf (List.replicate 25 (0 : ℚ)) 1 10
      = [(0, Mode.major, 1 / (1 + 0 + 1 / 100000000)),
         (0, Mode.major, 1 / (1 + 0 + 1 / 100000000))] := by
    rw [segment_estimates_eq_map, husable]
    simp only [List.map_cons, List.map_nil, hsc10]
    rw [selectKey_c3_front_eval]
  have hestR : (claim_segments (List.replicate 25 (0 : ℚ)) 1 10).map
        (fun s => selectKey (c3ScoresOf s).1 (c3ScoresOf s).2)
      = [(0, Mode.major, 1 / (1 + 0 + 1 / 100000000)),
         (0, Mode.major, 1 / (1 + 0 + 1 / 100000000)),
         (5, Mode.major, 10 / (10 + 0 + 1 / 100000000))] := by
    rw [hclaim]
    simp only [List.map_cons, List.map_nil, hsc10, hsc5]
    rw [selectKey_c3_front_eval, selectKey_c3_tail_eval]
  have hL : segment_based_detection c3ScoresOf (List.replicate 25 (0 : ℚ)) 1 10
      = vote_aggregate [(0, Mode.major, 1 / (1 + 0 + 1 / 100000000)),
         (0, Mode.major, 1 / (1 + 0 + 1 / 100000000))] := by
    simp only [segment_based_detection]
    rw [hestL, if_neg (by simp)]
  have hR : segment_detection_claim c3ScoresOf (List.replicate 25 (0 : ℚ)) 1 10
      = vote_aggregate [(0, Mode.major, 1 / (1 + 0 + 1 / 100000000)),
         (0, Mode.major, 1 / (1 + 0 + 1 / 100000000)),
         (5, Mode.major, 10 / (10 + 0 + 1 / 100000000))] := by
    simp only [segment_detection_claim]
    rw [hestR, if_neg (by simp)]
  intro hcon
  rw [hL, hR] at hcon
  have hconf := congrArg (fun t : Fin 12 × Mode × ℚ => t.2.2) hcon
  simp only [vote_aggregate_conf, List.map_cons, List.map_nil, List.sum_cons, List.sum_nil,
    List.length_cons, List.length_nil] at hconf
  norm_num at hconf

/-- C3 (amended): the Segment-Voting estimator uses the floor count of
full segments (discarding any trailing remainder, and using the whole
waveform as one segment when shorter than a full segment), drops
segments of at most one second, returns the degenerate estimate when no
usable segment remains, and otherwise aggregates by confidence-weighted
tonic votes, compared mode mass, and unweighted mean confidence. -/
theorem segment_based_detection_amended {α : Type} [LinearOrderedField α]
    (scoresOf : List α → (Fin 12 → α) × (Fin 12 → α))
    (y : List α) (sr segment_duration : ℕ) (hss : 0 < segment_duration * sr) :
    segment_based_detection scoresOf y sr segment_duration
      = segment_detection_amended scoresOf y sr segment_duration := by
  unfold segment_based_detection segment_detection_amended
  rw [segment_estimates_eq_map, code_usable_segments_eq_amended y sr segment_duration hss]

/-- Witness for the amended C3 at concrete inputs: a 25-sample waveform,
one sample per second, 10-second segments. -/
theorem segment_based_detection_amended_witness :
    0 < 10 * 1 ∧
      segment_based_detection c3ScoresOf (List.replicate 25 (0 : ℚ)) 1 10
        = segment_detection_amended c3ScoresOf (List.replicate 25 (0 : ℚ)) 1 10 :=
  ⟨by decide, segment_based_detection_amended c3ScoresOf (List.replicate 25 (0 : ℚ)) 1 10
    (by decide)⟩

/-! ### Waveform trimming (`analysis.py` lines 153-159) -/

/-- The intro/outro trim applied by `detect_key_librosa` before any
analysis, `analysis.py` lines 156-159: waveforms longer than 30 seconds
are sliced as `y[10 * sr : min(len(y) - 10 * sr, 120 * sr)]`. -/
def trim_waveform {α : Type} (y : List α) (sr : ℕ) : List α :=
  if 30 * sr < y.length then
    (y.drop (10 * sr)).take (min (y.length - 10 * sr) (120 * sr) - 10 * sr)
  else
    y

/-- C7: a waveform of more than 30 seconds is analyzed on the contiguous
window starting right after the first 10 seconds, ending at least 10
seconds before the end, with the analyzed span at most 120 seconds; a
waveform of at most 30 seconds is analyzed in full. -/
theorem trim_waveform_spec {α : Type} (y : List α) (sr : ℕ) :
    (y.length ≤ 30 * sr → trim_waveform y sr = y) ∧
    (30 * sr < y.length →
      trim_waveform y sr
          = (y.drop (10 * sr)).take (min (y.length - 20 * sr) (110 * sr)) ∧
        (trim_waveform y sr).length ≤ 120 * sr ∧
        20 * sr + (trim_waveform y sr).length ≤ y.length) := by
  constructor
  · intro h
    unfold trim_waveform
    rw [if_neg (not_lt.mpr h)]
  · intro h
    have htw : trim_waveform y sr
        = (y.drop (10 * sr)).take (min (y.length - 10 * sr) (120 * sr) - 10 * sr) := by
      unfold trim_waveform
      rw [if_pos h]
    have harith : min (y.length - 10 * sr) (120 * sr) - 10 * sr
        = min (y.length - 20 * sr) (110 * sr) := by omega
    refine ⟨by rw [htw, harith], ?_, ?_⟩
    · rw [htw]
      simp only [List.length_take, List.length_drop]
      omega
    · rw [htw]
      simp only [List.length_take, List.length_drop]
      omega

/-- Witness for C7 at a concrete input: 31 samples at one sample per
second are trimmed to the window from sample 10 to sample 21. -/
theorem trim_waveform_spec_witness :
    trim_waveform (List.replicate 31 (0 : ℕ)) 1
        = ((List.replicate 31 (0 : ℕ)).drop (10 * 1)).take
            (min ((List.replicate 31 (0 : ℕ)).length - 20 * 1) (110 * 1)) ∧
      (trim_waveform (List.replicate 31 (0 : ℕ)) 1).length ≤ 120 * 1 ∧
      20 * 1 + (trim_waveform (List.replicate 31 (0 : ℕ)) 1).length
        ≤ (List.replicate 31 (0 : ℕ)).length :=
  (trim_waveform_spec (List.replicate 31 (0 : ℕ)) 1).2 (by norm_num)

/-! ### Batch analysis (`analysis.py` lines 142-317) -/

/-- The fixed-shape result record assembled by `detect_key_librosa`,
`analysis.py` lines 255-265 and 274-284. -/
structure AnalysisResult where
  key : String
  mode : String
  relative_scale : String
  confidence : ℚ
  tempo : ℚ
  energy : ℚ
  brightness : ℚ
  scale : String
  alternative_keys : List (String × ℚ)
deriving DecidableEq, Repr

/-- The sentinel result returned by the exception handler of
`detect_key_librosa`, `analysis.py` lines 274-284. -/
def sentinel_result : AnalysisResult :=
  { key := "Unknown", mode := "unknown", relative_scale := "Unknown", confidence := 0,
    tempo := 0, energy := 0, brightness := 0, scale := "Unknown", alternative_keys := [] }

/-- `detect_key_librosa`, `analysis.py` lines 142-284: the entire try
body (cache lookup, audio loading and decoding, the trim, both
estimators, the consensus resolution and the auxiliary features) is the
abstracted collaborator `body`, returning `none` exactly when any of its
steps raises; the except handler substitutes the sentinel result. -/
def detect_key_librosa (body : String → Option AnalysisResult) (filepath : String) :
    AnalysisResult :=
  (body filepath).getD sentinel_result

/-- `extract_metadata_from_filename`, `analysis.py` lines 287-296.
`basename` and `splitext_root` abstract the `os.path` collaborators
(`os.path.basename`, and the root part of `os.path.splitext`); the split
on the first `" - "` occurrence is `str.split(" - ", 1)`. -/
def extract_metadata_from_filename (basename splitext_root : String → String)
    (filepath : String) : String × String :=
  let name := splitext_root (basename filepath)
  match name.splitOn " - " with
  | artist :: rest0 :: rest => (artist, String.intercalate " - " (rest0 :: rest))
  | _ => ("Unknown", name)

/-- One row of the batch result table, `analysis.py` lines 309-314. -/
structure TrackRow where
  file : String
  artist : String
  track : String
  analysis : AnalysisResult
deriving DecidableEq, Repr

/-- `analyze_files`, `analysis.py` lines 298-317: loop over the files in
input order, appending one row per file (the progress callback is a pure
side effect and is not modelled). -/
def analyze_files (basename splitext_root : String → String)
    (body : String → Option AnalysisResult) (files : List String) : List TrackRow :=
  files.foldl
    (fun results filepath =>
      results ++
        [{ file := basename filepath
           artist := (extract_metadata_from_filename basename splitext_root filepath).1
           track := (extract_metadata_from_filename basename splitext_root filepath).2
           analysis := detect_key_librosa body filepath }])
    []

theorem foldl_append_eq_map {β γ : Type} (g : β → γ) :
    ∀ (l : List β) (acc : List γ),
      l.foldl (fun results x => results ++ [g x]) acc = acc ++ l.map g := by
  intro l
  induction l with
  | nil => intro acc; simp
  | cons x t ih =>
      intro acc
      rw [List.foldl_cons, ih, List.map_cons]
      simp

/-- C6: the batch analyzer returns exactly one row per input source, in
input order; a source whose analysis fails (the collaborator returns
`none`) yields the sentinel row, every other source is analyzed
normally, and no failure aborts the batch; the sentinel carries
key "Unknown", mode "unknown", zero confidence, zero numeric fields and
no alternatives. -/
theorem analyze_files_batch_resilience (basename splitext_root : String → String)
    (body : String → Option AnalysisResult) (files : List String) :
    (analyze_files basename splitext_root body files).length = files.length ∧
    analyze_files basename splitext_root body files
      = files.map (fun filepath =>
          { file := basename filepath
            artist := (extract_metadata_from_filename basename splitext_root filepath).1
            track := (extract_metadata_from_filename basename splitext_root filepath).2
            analysis := (body filepath).getD sentinel_result }) ∧
    sentinel_result.key = "Unknown" ∧ sentinel_result.mode = "unknown" ∧
    sentinel_result.confidence = 0 ∧ sentinel_result.tempo = 0 ∧
    sentinel_result.energy = 0 ∧ sentinel_result.brightness = 0 ∧
    sentinel_result.alternative_keys = [] := by
  have hmap : analyze_files basename splitext_root body files
      = files.map (fun filepath =>
          { file := basename filepath
            artist := (extract_metadata_from_filename basename splitext_root filepath).1
            track := (extract_metadata_from_filename basename splitext_root filepath).2
            analysis := (body filepath).getD sentinel_result }) := by
    unfold analyze_files detect_key_librosa
    rw [foldl_append_eq_map]
    simp
  refine ⟨?_, hmap, rfl, rfl, rfl, rfl, rfl, rfl, rfl⟩
  rw [hmap, List.length_map]

/-! ### Key names, relative keys and transitions
(`analysis.py` lines 132-140 and 319-339) -/

/-- Modelled from the spec: `constants.py` is not among the provided
sources; `KEY_NAMES` holds the 12 pitch-class names indexed 0 = C up to
11 = B (§3, PitchClassVector; Glossary, Tonic). -/
def KEY_NAMES : List String :=
  ["C", "C#", "D", "D#", "E", "F"] ++ ["F#", "G", "G#", "A", "A#", "B"]

/-- Tonic index of the relative major of a minor key,
`analysis.py` line 135. -/
def rel_index_of_minor (key_index : ℤ) : ℤ := (key_index + 3) % 12

/-- Tonic index of the relative minor of a major key,
`analysis.py` line 138. -/
def rel_index_of_major (key_index : ℤ) : ℤ := (key_index - 3) % 12

/-- `relative_major_minor`, `analysis.py` lines 132-140. -/
def relative_major_minor (key_index : ℤ) (mode : String) : String :=
  if mode = "minor" then
    (KEY_NAMES.getD (rel_index_of_minor key_index).toNat "") ++ " major"
  else if mode = "major" then
    (KEY_NAMES.getD (rel_index_of_major key_index).toNat "") ++ " minor"
  else
    "Unknown"

/-- C9: the relative-key transform is an involution on tonic indices:
+3 semitones mod 12 (minor to major) followed by -3 semitones mod 12
(major to minor) yields the original tonic, and symmetrically; at the
name level, `relative_major_minor` maps the transformed tonic back to
the original key name. -/
theorem relative_key_round_trip (k : Fin 12) :
    rel_index_of_major (rel_index_of_minor (k : ℤ)) = (k : ℤ) ∧
    rel_index_of_minor (rel_index_of_major (k : ℤ)) = (k : ℤ) ∧
    relative_major_minor (rel_index_of_minor (k : ℤ)) "major"
      = KEY_NAMES.getD (k : ℕ) "" ++ " minor" ∧
    relative_major_minor (rel_index_of_major (k : ℤ)) "minor"
      = KEY_NAMES.getD (k : ℕ) "" ++ " major" := by
  revert k
  decide

/-- `key_to_num.get(key, 0)`: position of a key name in `KEY_NAMES`,
defaulting to 0 for a name not in the dictionary (`analysis.py` lines
321 and 328-329). -/
def key_to_num (key : String) : ℕ :=
  (KEY_NAMES.findIdx? fun k => k == key).getD 0

/-- Circular semitone distance between two tonic indices,
`analysis.py` line 331. -/
def semitone_distance (curr_num next_num : ℤ) : ℤ :=
  min |next_num - curr_num| (12 - |next_num - curr_num|)

/-- One key-transition record, `analysis.py` lines 332-337. -/
structure KeyTransition where
  position : ℕ
  fromLabel : String
  toLabel : String
  distance : ℤ
deriving DecidableEq, Repr

/-- `calculate_key_transitions`, `analysis.py` lines 319-339, on the
ordered `(key, mode)` rows of the result table. -/
def calculate_key_transitions (rows : List (String × String)) : List KeyTransition :=
  (rows.zip rows.tail).enum.map fun pe =>
    { position := pe.1 + 1
      fromLabel := pe.2.1.1 ++ " " ++ pe.2.1.2
      toLabel := pe.2.2.1 ++ " " ++ pe.2.2.2
      distance := semitone_distance (key_to_num pe.2.1.1 : ℤ) (key_to_num pe.2.2.1 : ℤ) }

theorem get?_zip_tail {β : Type} :
    ∀ (l : List β) (i : ℕ) (a b : β),
      l.get? i = some a → l.get? (i + 1) = some b →
      (l.zip l.tail).get? i = some (a, b)
  | [], i, a, b, h1, _h2 => by simp at h1
  | [x], i, a, b, _h1, h2 => by
      cases i <;> simp at h2
  | x :: y :: t, 0, a, b, h1, h2 => by
      simp at h1 h2
      subst h1
      subst h2
      rfl
  | x :: y :: t, (i + 1), a, b, h1, h2 => by
      have ih := get?_zip_tail (y :: t) i a b (by simpa using h1) (by simpa using h2)
      simpa using ih

theorem semitone_distance_bounds (a b : ℤ) (ha0 : 0 ≤ a) (ha : a < 12)
    (hb0 : 0 ≤ b) (hb : b < 12) :
    0 ≤ semitone_distance a b ∧ semitone_distance a b ≤ 6 := by
  unfold semitone_distance
  have habs : |b - a| ≤ 11 := abs_le.mpr ⟨by omega, by omega⟩
  have habs0 : 0 ≤ |b - a| := abs_nonneg _
  constructor
  · exact le_min habs0 (by omega)
  · rcases le_or_lt |b - a| 6 with h | h
    · exact min_le_of_left_le h
    · exact min_le_of_right_le (by omega)

/-- C8: for a result table of length `L` the transition computation
produces exactly `L - 1` records; record `i` joins rows `i` and `i + 1`
with their "key mode" labels and the circular semitone distance of their
tonic indices only (mode ignored); and on all tonic pairs that distance
is in `[0, 6]` and symmetric. -/
theorem calculate_key_transitions_spec (rows : List (String × String)) :
    (calculate_key_transitions rows).length = rows.length - 1 ∧
    (∀ (i : ℕ) (r1 r2 : String × String),
      rows.get? i = some r1 → rows.get? (i + 1) = some r2 →
      (calculate_key_transitions rows).get? i
        = some { position := i + 1
                 fromLabel := r1.1 ++ " " ++ r1.2
                 toLabel := r2.1 ++ " " ++ r2.2
                 distance := semitone_distance (key_to_num r1.1 : ℤ) (key_to_num r2.1 : ℤ) }) ∧
    (∀ a b : Fin 12,
      0 ≤ semitone_distance (a : ℤ) (b : ℤ) ∧ semitone_distance (a : ℤ) (b : ℤ) ≤ 6 ∧
      semitone_distance (a : ℤ) (b : ℤ) = semitone_distance (b : ℤ) (a : ℤ)) := by
  refine ⟨?_, ?_, ?_⟩
  · simp only [calculate_key_transitions, List.length_map, List.enum_length,
      List.length_zip, List.length_tail]
    omega
  · intro i r1 r2 h1 h2
    simp only [calculate_key_transitions, List.get?_map, List.get?_enum,
      get?_zip_tail rows i r1 r2 h1 h2]
    rfl
  · intro a b
    have hsym : semitone_distance (a : ℤ) (b : ℤ) = semitone_distance (b : ℤ) (a : ℤ) := by
      unfold semitone_distance
      rw [abs_sub_comm]
    have hb := semitone_distance_bounds (a : ℤ) (b : ℤ) (by positivity) (by exact_mod_cast a.isLt)
      (by positivity) (by exact_mod_cast b.isLt)
    exact ⟨hb.1, hb.2, hsym⟩

/-- Witness for C8 at concrete inputs: C major followed by G major gives
one transition at distance `min(7, 5) = 5`. -/
theorem calculate_key_transitions_spec_witness :
    (calculate_key_transitions [("C", "major"), ("G", "major")]).get? 0
      = some { position := 1, fromLabel := "C major", toLabel := "G major", distance := 5 } := by
  have h := (calculate_key_transitions_spec [("C", "major"), ("G", "major")]).2.1 0
    ("C", "major") ("G", "major") rfl rfl
  rw [h]
  decide

/-- C10: the transition computation is total on arbitrary key names:
every name outside `KEY_NAMES` (the "Unknown" sentinel included) maps to
tonic index 0 — the index of C — and every computed transition distance
still lies in `[0, 6]`. -/
theorem key_to_num_unrecognized_safe :
    (∀ s : String, s ∉ KEY_NAMES → key_to_num s = 0) ∧
    key_to_num "C" = 0 ∧
    (∀ (rows : List (String × String)) (t : KeyTransition),
      t ∈ calculate_key_transitions rows → 0 ≤ t.distance ∧ t.distance ≤ 6) := by
  have hlt : ∀ s : String, key_to_num s < 12 := by
    intro s
    unfold key_to_num
    cases hfind : KEY_NAMES.findIdx? fun k => k == s with
    | none => simp
    | some i =>
        have hi := (List.findIdx?_eq_some_iff_findIdx_eq.mp hfind).1
        have hlen : KEY_NAMES.length = 12 := rfl
        simp only [Option.getD_some]
        omega
  refine ⟨?_, rfl, ?_⟩
  · intro s hs
    unfold key_to_num
    have hnone : KEY_NAMES.findIdx? (fun k => k == s) = none := by
      rw [List.findIdx?_eq_none_iff]
      intro x hx
      by_cases hxe : x = s
      · exact absurd (hxe ▸ hx) hs
      · simpa using hxe
    rw [hnone]
    rfl
  · intro rows t ht
    obtain ⟨pe, _hpe, hteq⟩ := List.mem_map.mp ht
    subst hteq
    exact semitone_distance_bounds _ _ (by positivity) (by exact_mod_cast hlt _)
      (by positivity) (by exact_mod_cast hlt _)

/-- Witness for C10 at concrete inputs: the "Unknown" sentinel key is
not a pitch-class name, maps to tonic index 0 (the index of C), and the
transition from an "Unknown" row to G major has distance 5 ∈ [0,6]. -/
theorem key_to_num_unrecognized_safe_witness :
    key_to_num "Unknown" = 0 ∧
    (0 ≤ ({ position := 1, fromLabel := "Unknown unknown", toLabel := "G major",
            distance := 5 } : KeyTransition).distance ∧
      ({ position := 1, fromLabel := "Unknown unknown", toLabel := "G major",
         distance := 5 } : KeyTransition).distance ≤ 6) :=
  ⟨key_to_num_unrecognized_safe.1 "Unknown" (by decide),
   key_to_num_unrecognized_safe.2.2 [("Unknown", "unknown"), ("G", "major")] _ (by decide)⟩

end SpotifyScaler
